import Mathlib

/-!
# Verification of the `bnrun` script-execution planner

A shallow embedding of the core of `bnrun` (`src/index.ts`): a script runner
that resolves a requested script name against a registry of templates
(exact or via `${identifier}` placeholder substitution), recursively expands
nested `bnrun <name>` self-invocations, and flattens everything into an
ordered plan of phased steps, with a run-once ledger suppressing repeated
pre/post phases and a glob-based skip filter annotating each step.

Strings are modelled as Lean `String`s, with the character-level scanning and
replacement operations (the `/\$\{(\w+)\}/g` regex scan, `String.replace`,
`String.replaceAll`, `split(':')`) implemented over `List Char`.  Recursive
plan building is modelled with an explicit fuel parameter (the source has no
cycle guard and can recurse unboundedly); `none` models a thrown error or
fuel exhaustion.  JavaScript `$`-escape sequences in `replace` replacement
strings are not modelled: the replacement values in this program are plain
parameter values and the patterns are placeholder literals.
-/

namespace BnRun

/-- The three execution phases, from the source `enum Phase`. -/
inductive Phase where
  | PRE
  | COMMAND
  | POST
deriving DecidableEq, Repr

/-- Per-phase options, from the source `Options` type (`config` field of a
script).  The only recognized value for `pre`/`post` is `"run-once"`; the
`options` list is carried but never read by the planning core. -/
structure Config where
  pre : Option String := none
  post : Option String := none
  options : Option (List String) := none
deriving DecidableEq, Repr

/-- A named script template, from the source `Script` type.  `pre` and `post`
are optional in the source (`pre?: string[]`); an absent list is modelled as
`[]`, which the source treats identically (both fail the
`script.pre && script.pre.length > 0` guard). -/
structure Script where
  name : String
  config : Option Config := none
  pre : List String := []
  command : List String := []
  post : List String := []
deriving DecidableEq, Repr

/-- One substitution binding, from the source
`{ param: string; value: string }` pairs. -/
structure Substitution where
  param : String
  value : String
deriving DecidableEq, Repr

/-- A resolved invocation, from the source `ProcessedScript`. -/
structure ProcessedScript where
  script : Script
  substitutions : List Substitution
deriving DecidableEq, Repr

/-- One concrete plan step, from the source `PlanStep` type. -/
structure PlanStep where
  script : String
  phase : Phase
  command : String
  skip : Bool
deriving DecidableEq, Repr

/-! ## Character-level string operations -/

/-- JavaScript's `\w` character class (ASCII word characters), as used by the
placeholder regex `/\$\{(\w+)\}/g`. -/
def isWordChar (c : Char) : Bool :=
  c.isAlpha || c.isDigit || c = '_'

/-- Try to match the placeholder regex `/\$\{(\w+)\}/` at the head of the
character list.  On success, return the whole matched placeholder text
(e.g. `"$\x7benv\x7d"`) and the characters after the match. -/
def matchPlaceholderAt : List Char → Option (String × List Char)
  | '$' :: '{' :: rest =>
    match rest.takeWhile isWordChar, rest.dropWhile isWordChar with
    | w :: ws, '}' :: tail =>
      some (String.mk ('$' :: '{' :: ((w :: ws) ++ ['}'])), tail)
    | _, _ => none
  | _ => none

/-- All matches of the global regex `/\$\{(\w+)\}/g` over a character list, in
order: at each position try to match, on success continue after the match,
on failure advance one character (the regex engine's scan).  Fuel-indexed so
the definition is structural; `findPlaceholders` supplies enough fuel. -/
def findPlaceholdersAux : Nat → List Char → List String
  | 0, _ => []
  | _ + 1, [] => []
  | fuel + 1, c :: cs =>
    match matchPlaceholderAt (c :: cs) with
    | some (ph, tail) => ph :: findPlaceholdersAux fuel tail
    | none => findPlaceholdersAux fuel cs

/-- The placeholder occurrences `$\x7bword\x7d` in a script name, in order of
appearance — the successive matches of the source's `while` loop over
`regex.exec(script.name)`. -/
def findPlaceholders (l : List Char) : List String :=
  findPlaceholdersAux l.length l

/-- JavaScript `String.prototype.replace` with a string pattern: replace the
first occurrence of `pat` (replacement text taken literally). -/
def replaceFirst (pat repl : List Char) : List Char → List Char
  | [] => if pat.isPrefixOf ([] : List Char) then repl else []
  | c :: cs =>
    if pat.isPrefixOf (c :: cs) then repl ++ (c :: cs).drop pat.length
    else c :: replaceFirst pat repl cs

/-- JavaScript `String.prototype.replaceAll` with a string pattern: replace
every (non-overlapping, left-to-right) occurrence of `pat`.  Fuel-indexed so
the definition is structural; in this program `pat` is always a nonempty
placeholder literal.  With fuel `s.length` (see `replaceAllStr`) the fuel
never runs out for nonempty `pat`. -/
def replaceAllAux : Nat → List Char → List Char → List Char → List Char
  | 0, _, _, s => s
  | _ + 1, _, _, [] => []
  | fuel + 1, pat, repl, c :: cs =>
    if pat ≠ [] ∧ pat.isPrefixOf (c :: cs) then
      repl ++ replaceAllAux fuel pat repl ((c :: cs).drop pat.length)
    else c :: replaceAllAux fuel pat repl cs

/-- `String`-level wrapper for `replaceFirst`. -/
def replaceFirstStr (pat repl s : String) : String :=
  String.mk (replaceFirst pat.toList repl.toList s.toList)

/-- `String`-level wrapper for `replaceAllAux`. -/
def replaceAllStr (pat repl s : String) : String :=
  String.mk (replaceAllAux s.toList.length pat.toList repl.toList s.toList)

/-- JavaScript `String.prototype.split` with a single-character separator:
the (possibly empty) segments between separator occurrences.
`splitOnChar sep l` is never empty. -/
def splitOnChar (sep : Char) : List Char → List (List Char)
  | [] => [[]]
  | c :: cs =>
    match splitOnChar sep cs with
    | [] => [[]]
    | seg :: rest =>
      if c = sep then [] :: seg :: rest else (c :: seg) :: rest

/-! ## The Resolver (`findMatchingScript`) -/

/-- The parameter value the source derives from the requested name:
`param.split(':')[1]`, used only when truthy (present and nonempty). -/
def derivedValue (param : String) : Option String :=
  match (splitOnChar ':' param.toList).get? 1 with
  | none => none
  | some v => if v = [] then none else some (String.mk v)

/-- The pattern-matching pass of `findMatchingScript` for one script: scan the
original template name for placeholder occurrences; for each occurrence, if
the derived value is truthy, replace the first remaining occurrence of that
placeholder text in the working name and record a binding.  Returns the
fully processed working name and the bindings, in order of discovery. -/
def patternSubst (script : Script) (param : String) : String × List Substitution :=
  match derivedValue param with
  | none => (script.name, [])
  | some v =>
    (findPlaceholders script.name.toList).foldl
      (fun acc ph => (replaceFirstStr ph v acc.1, acc.2 ++ [⟨ph, v⟩]))
      (script.name, ([] : List Substitution))

/-- The `for (const script of scripts)` loop of `findMatchingScript`: return
the first script whose substituted name equals the requested name. -/
def findMatchingScriptAux (param : String) : List Script → Option ProcessedScript
  | [] => none
  | s :: rest =>
    if (patternSubst s param).1 = param then some ⟨s, (patternSubst s param).2⟩
    else findMatchingScriptAux param rest

/-- The source `findMatchingScript`: exact name match first (empty bindings),
then the placeholder-substitution pass; `none` models the thrown
`No script found for ...` (ScriptNotFound) error. -/
def findMatchingScript (scripts : List Script) (param : String) : Option ProcessedScript :=
  match scripts.find? (fun s => s.name == param) with
  | some s => some ⟨s, []⟩
  | none => findMatchingScriptAux param scripts

/-! ## Phase gates and the run-once ledger -/

/-- The source `shouldExecutePre`: the pre phase runs iff the pre list is
nonempty and (run-once is not configured for pre, or the script's
unsubstituted name is not yet in the `scriptsRan` ledger). -/
def shouldExecutePre (scriptsRan : List String) (script : Script) : Bool :=
  if script.pre.length > 0 then
    match script.config with
    | some cfg =>
      if cfg.pre = some "run-once" then !(scriptsRan.contains script.name)
      else true
    | none => true
  else false

/-- The source `shouldExecutePost`, the post-phase counterpart. -/
def shouldExecutePost (scriptsRan : List String) (script : Script) : Bool :=
  if script.post.length > 0 then
    match script.config with
    | some cfg =>
      if cfg.post = some "run-once" then !(scriptsRan.contains script.name)
      else true
    | none => true
  else false

/-! ## The Plan Builder (`executeScript` / `runCommand`) -/

/-- The substituted display name computed at the top of `executeScript`:
each binding's placeholder replaced (first occurrence) by its value. -/
def subName (subs : List Substitution) (name : String) : String :=
  subs.foldl (fun n sub => replaceFirstStr sub.param sub.value n) name

/-- The substituted command computed at the top of `runCommand`:
each binding's placeholder replaced (all occurrences) by its value. -/
def subCommand (subs : List Substitution) (c : String) : String :=
  subs.foldl (fun cmd sub => replaceAllStr sub.param sub.value cmd) c

/-- The source `bnrunPrefix` constant: the tool's self-invocation marker. -/
def bnrunMarker : String := "bnrun "

/-- Whether a raw command template begins with the self-invocation marker —
the `commandToRun.startsWith(bnrunPrefix)` test of `runCommand`.  Note that
the source applies this test to the unsubstituted command template. -/
def isBnrun (c : String) : Bool :=
  bnrunMarker.toList.isPrefixOf c.toList

/-- The nested script name extracted in `runCommand`:
`command.substring(bnrunPrefix.length)` on the substituted command. -/
def bnrunTarget (command : String) : String :=
  String.mk (command.toList.drop bnrunMarker.toList.length)

/-- The source `matchGlobPatterns`: for each item and each pattern, test the
matcher and collect matching patterns; the result is whether anything
matched.  `minimatch` is the external glob library, abstracted as a
parameter `mm : item → pattern → Bool` (its internals are outside this
repository; see `globMatch` for a model). -/
def matchGlobPatternsWith (mm : String → String → Bool)
    (items : List String) (patterns : List String) : Bool :=
  let matchedItems :=
    items.foldl (fun acc item => acc ++ patterns.filter (fun p => mm item p)) []
  matchedItems.length > 0

/-- Modelled from the spec: the external `minimatch` glob matcher ("glob-style
pattern matching with `*`, `?`, ..."); the library's code is not part of this
repository, so a standard glob semantics (`*` = any sequence, `?` = any one
character, other characters literal) is used.  Fuel-indexed so the
definition is structural; `globMatch` supplies enough fuel. -/
def globMatchAux : Nat → List Char → List Char → Bool
  | 0, _, _ => false
  | _ + 1, [], [] => true
  | fuel + 1, [], p :: ps => if p = '*' then globMatchAux fuel [] ps else false
  | _ + 1, _ :: _, [] => false
  | fuel + 1, c :: cs, p :: ps =>
    if p = '*' then globMatchAux fuel (c :: cs) ps || globMatchAux fuel cs (p :: ps)
    else if p = '?' then globMatchAux fuel cs ps
    else c = p && globMatchAux fuel cs ps

/-- Modelled from the spec: `minimatch(item, pattern)` of the external glob
library (see `globMatchAux`). -/
def minimatch (item pattern : String) : Bool :=
  globMatchAux (item.toList.length + pattern.toList.length + 1)
    item.toList pattern.toList

/-- `matchGlobPatterns` as called by the program, with the external matcher
instantiated to the `minimatch` model. -/
def matchGlobPatterns (items : List String) (patterns : List String) : Bool :=
  matchGlobPatternsWith minimatch items patterns

/-- The single plan step emitted by `runCommand` for a plain (non-nested)
command: current phase, substituted display name, substituted command, and
the skip flag computed from the glob patterns. -/
def mkStep (pats : List String) (name : String) (phase : Phase) (command : String) :
    PlanStep :=
  ⟨name, phase, command, matchGlobPatterns [name, command] pats⟩

mutual

/-- The source `executeScript`, building the flattened plan for one resolved
invocation.  The mutable module-level `scriptsRan` ledger is threaded
explicitly; the result pairs the built steps with the updated ledger.
`none` models a thrown error (nested ScriptNotFound) or fuel exhaustion
(the source recurses unboundedly with no cycle guard).  The `level`
parameter (display indentation only) and the `steps` accumulator
(always called with its default `[]`) are omitted. -/
def executeScriptF (reg : List Script) (pats : List String) :
    Nat → ProcessedScript → Phase → List String →
    Option (List PlanStep × List String)
  | 0, _, _, _ => none
  | fuel + 1, subbed, _, ledger =>
    let s := subbed.script
    let name := subName subbed.substitutions s.name
    (if shouldExecutePre ledger s then
        runCommandsF reg pats fuel name s.pre subbed.substitutions Phase.PRE ledger
      else some ([], ledger)).bind fun pr =>
    (if s.command.length > 0 then
        runCommandsF reg pats fuel name s.command subbed.substitutions Phase.COMMAND pr.2
      else some ([], pr.2)).bind fun cm =>
    (if shouldExecutePost cm.2 s then
        runCommandsF reg pats fuel name s.post subbed.substitutions Phase.POST cm.2
      else some ([], cm.2)).bind fun po =>
    some (pr.1 ++ cm.1 ++ po.1, po.2 ++ [s.name])

/-- One phase block of `executeScript`: the sequential
`script.<phase>.map(c => runCommand(...))` followed by flattening, with the
ledger threaded through the per-command calls in order. -/
def runCommandsF (reg : List Script) (pats : List String) :
    Nat → String → List String → List Substitution → Phase → List String →
    Option (List PlanStep × List String)
  | 0, _, _, _, _, _ => none
  | _ + 1, _, [], _, _, ledger => some ([], ledger)
  | fuel + 1, name, c :: cs, subs, phase, ledger =>
    (runCommandF reg pats fuel name c subs phase ledger).bind fun st =>
    (runCommandsF reg pats fuel name cs subs phase st.2).bind fun rest =>
    some (st.1 ++ rest.1, rest.2)

/-- The source `runCommand`: substitute the bindings into the command
template; if the raw template starts with the self-invocation marker,
resolve the (substituted) nested name and recursively expand it at the same
phase, splicing its steps; otherwise emit exactly one plan step. -/
def runCommandF (reg : List Script) (pats : List String) :
    Nat → String → String → List Substitution → Phase → List String →
    Option (List PlanStep × List String)
  | 0, _, _, _, _, _ => none
  | fuel + 1, name, c, subs, phase, ledger =>
    let command := subCommand subs c
    if isBnrun c then
      match findMatchingScript reg (bnrunTarget command) with
      | none => none
      | some found => executeScriptF reg pats fuel found phase ledger
    else
      some ([mkStep pats name phase command], ledger)

end

/-- The top-level pass (`const found = ...; const steps = executeScript(found)`):
resolve the requested name and build the flattened plan, starting from an
empty ledger at the default `Phase.COMMAND`.  `none` models a thrown
ScriptNotFound (top-level or nested) or fuel exhaustion. -/
def buildPlan (reg : List Script) (pats : List String) (fuel : Nat)
    (requested : String) : Option (List PlanStep) :=
  match findMatchingScript reg requested with
  | none => none
  | some found => (executeScriptF reg pats fuel found Phase.COMMAND []).map Prod.fst

/-! ## Loading (`loadScriptFile` / `isScriptsFile`) -/

/-- Already-parsed JSON data, as produced by `JSON.parse` in `loadScriptFile`.
Numbers are irrelevant to the claims and carried abstractly as integers. -/
inductive JSValue where
  | jnull
  | jbool (b : Bool)
  | jnum (n : Int)
  | jstr (s : String)
  | jarr (items : List JSValue)
  | jobj (fields : List (String × JSValue))

/-- The source `isScriptsFile` type guard: `typeof obj === 'object'`.
In JavaScript this is `true` for objects, arrays and `null`. -/
def isScriptsFile : JSValue → Bool
  | .jnull => true
  | .jarr _ => true
  | .jobj _ => true
  | _ => false

/-- The source `loadScriptFile` after `JSON.parse`: accept the parsed value
iff `isScriptsFile` holds; `none` models the thrown `Invalid script file`
error. -/
def loadScriptFile (v : JSValue) : Option JSValue :=
  if isScriptsFile v then some v else none

/-! ## The example registry from the specification -/

/-- Spec example template `"build": \x7bcommand: ["echo A"]\x7d`. -/
def exBuild : Script := { name := "build", command := ["echo A"] }

/-- Spec example template
`"deploy:$\x7benv\x7d": \x7bpre: ["echo setup"], command: ["echo deploy $\x7benv\x7d"]\x7d`. -/
def exDeploy : Script :=
  { name := "deploy:${env}", pre := ["echo setup"], command := ["echo deploy ${env}"] }

/-- Spec example template
`"all": \x7bcommand: ["bnrun build", "bnrun deploy:prod"]\x7d`. -/
def exAll : Script :=
  { name := "all", command := ["bnrun build", "bnrun deploy:prod"] }

/-- A template whose name patterns a leading placeholder into the command,
used to exercise the self-invocation marker check: requesting `run:bnrun`
substitutes `$\x7bx\x7d := bnrun`, so the substituted command becomes
`bnrun build` while the raw template `"$\x7bx\x7d build"` does not start
with the marker. -/
def exRunX : Script := { name := "run:${x}", command := ["${x} build"] }

/-- A template whose name literally contains a placeholder token and no `:`,
used to exercise exact matching of parameterized names. -/
def exLiteralPh : Script := { name := "x${env}", command := ["echo hi"] }

/-- A script with a run-once pre phase and plain commands, used to exercise
run-once suppression. -/
def exRunOnce : Script :=
  { name := "s", config := some { pre := some "run-once" },
    pre := ["echo p"], command := ["echo c"] }

/-- The plan steps produced by a list of plain (non-nested) command templates
in a single phase block: one step per template, in declared order. -/
def plainSteps (pats : List String) (name : String) (subs : List Substitution)
    (phase : Phase) (cs : List String) : List PlanStep :=
  cs.map (fun c => mkStep pats name phase (subCommand subs c))

/-! ## Helper lemmas -/

/-- A plain (non-nested) command template is expanded by `runCommand` into
exactly one step and leaves the ledger unchanged. -/
theorem runCommandF_plain (reg : List Script) (pats : List String)
    (f : Nat) (name c : String) (subs : List Substitution) (phase : Phase)
    (L : List String) (hc : isBnrun c = false) (hf : 0 < f) :
    runCommandF reg pats f name c subs phase L =
      some ([mkStep pats name phase (subCommand subs c)], L) := by
  cases f with
  | zero => omega
  | succ f => simp [runCommandF, hc]

/-- A phase block of plain command templates expands to one step per
template, in declared order, leaving the ledger unchanged. -/
theorem runCommandsF_plain (reg : List Script) (pats : List String)
    (name : String) (subs : List Substitution) (phase : Phase) :
    ∀ (cs : List String) (f : Nat) (L : List String),
      (∀ c ∈ cs, isBnrun c = false) → cs.length < f →
      runCommandsF reg pats f name cs subs phase L =
        some (plainSteps pats name subs phase cs, L) := by
  intro cs
  induction cs with
  | nil =>
    intro f L _ hf
    cases f with
    | zero => omega
    | succ f => simp [runCommandsF, plainSteps]
  | cons c cs ih =>
    intro f L hplain hf
    cases f with
    | zero => omega
    | succ f =>
      have hc : isBnrun c = false := hplain c (List.mem_cons_self c cs)
      have hcs : ∀ x ∈ cs, isBnrun x = false :=
        fun x hx => hplain x (List.mem_cons_of_mem c hx)
      have hlen : cs.length < f := by simp at hf; omega
      simp only [runCommandsF]
      rw [runCommandF_plain reg pats f name c subs phase L hc (by omega)]
      simp only [Option.some_bind]
      rw [ih f L hcs hlen]
      simp [plainSteps]

/-- `executeScript` on a script whose phase lists are all plain commands:
the flattened output is the (gated) pre block, then the command block, then
the (gated) post block, and the script's unsubstituted name is appended to
the ledger. -/
theorem executeScriptF_plain (reg : List Script) (pats : List String)
    (s : Script) (subs : List Substitution) (phase : Phase) (L : List String)
    (f : Nat)
    (hpre : ∀ c ∈ s.pre, isBnrun c = false)
    (hcmd : ∀ c ∈ s.command, isBnrun c = false)
    (hpost : ∀ c ∈ s.post, isBnrun c = false)
    (hf : s.pre.length + s.command.length + s.post.length + 1 < f) :
    executeScriptF reg pats f ⟨s, subs⟩ phase L =
      some ((if shouldExecutePre L s then
                plainSteps pats (subName subs s.name) subs Phase.PRE s.pre
              else [])
          ++ plainSteps pats (subName subs s.name) subs Phase.COMMAND s.command
          ++ (if shouldExecutePost L s then
                plainSteps pats (subName subs s.name) subs Phase.POST s.post
              else []),
        L ++ [s.name]) := by
  cases f with
  | zero => omega
  | succ f =>
    simp only [executeScriptF]
    have hpreBlock :
        (if shouldExecutePre L s then
            runCommandsF reg pats f (subName subs s.name) s.pre subs Phase.PRE L
          else some ([], L)) =
        some ((if shouldExecutePre L s then
                  plainSteps pats (subName subs s.name) subs Phase.PRE s.pre
                else []), L) := by
      by_cases h : shouldExecutePre L s
      · rw [if_pos h, if_pos h,
          runCommandsF_plain reg pats (subName subs s.name) subs Phase.PRE s.pre f L hpre
            (by omega)]
      · rw [if_neg h, if_neg h]
    have hcmdBlock :
        (if s.command.length > 0 then
            runCommandsF reg pats f (subName subs s.name) s.command subs Phase.COMMAND L
          else some ([], L)) =
        some (plainSteps pats (subName subs s.name) subs Phase.COMMAND s.command, L) := by
      by_cases h : s.command.length > 0
      · rw [if_pos h,
          runCommandsF_plain reg pats (subName subs s.name) subs Phase.COMMAND s.command f L
            hcmd (by omega)]
      · have : s.command = [] := by
          cases hc : s.command with
          | nil => rfl
          | cons a l => rw [hc] at h; simp at h
        rw [if_neg h, this]
        simp [plainSteps]
    have hpostBlock :
        (if shouldExecutePost L s then
            runCommandsF reg pats f (subName subs s.name) s.post subs Phase.POST L
          else some ([], L)) =
        some ((if shouldExecutePost L s then
                  plainSteps pats (subName subs s.name) subs Phase.POST s.post
                else []), L) := by
      by_cases h : shouldExecutePost L s
      · rw [if_pos h, if_pos h,
          runCommandsF_plain reg pats (subName subs s.name) subs Phase.POST s.post f L hpost
            (by omega)]
      · rw [if_neg h, if_neg h]
    rw [hpreBlock]
    simp only [Option.some_bind]
    rw [hcmdBlock]
    simp only [Option.some_bind]
    rw [hpostBlock]
    simp only [Option.some_bind]

/-- Accumulating one binding per processed placeholder: the second component
of the substitution fold is one binding per placeholder occurrence, in
order. -/
theorem foldl_push_snd {α β γ : Type} (l : List α) (g : β → α → β) (h : α → γ) :
    ∀ (b : β) (acc : List γ),
      (l.foldl (fun p a => (g p.1 a, p.2 ++ [h a])) (b, acc)).2 = acc ++ l.map h := by
  induction l with
  | nil => intro b acc; simp
  | cons a l ih => intro b acc; simp [ih]

/-- A template whose name has no placeholder occurrence passes through the
pattern-substitution pass unchanged, with no bindings. -/
theorem patternSubst_no_placeholders (s : Script) (param : String)
    (h : findPlaceholders s.name.toList = []) :
    patternSubst s param = (s.name, []) := by
  unfold patternSubst
  cases hd : derivedValue param with
  | none => rfl
  | some v => rw [h]; rfl

/-- Splitting on a separator that does not occur yields the single original
segment. -/
theorem splitOnChar_no_sep (sep : Char) (l : List Char)
    (h : l.contains sep = false) : splitOnChar sep l = [l] := by
  induction l with
  | nil => rfl
  | cons c cs ih =>
    simp only [List.contains_cons, Bool.or_eq_false_iff] at h
    obtain ⟨h1, h2⟩ := h
    have hne : ¬ c = sep := fun hc => by subst hc; simp at h1
    simp only [splitOnChar, ih h2]
    rw [if_neg hne]

/-- A requested name with no `:` derives no parameter value
(`param.split(':')[1]` is `undefined`). -/
theorem derivedValue_no_colon (param : String)
    (h : param.toList.contains ':' = false) : derivedValue param = none := by
  unfold derivedValue
  rw [splitOnChar_no_sep ':' param.toList h]
  rfl

/-- If no template survives the pattern-substitution comparison, the scan
loop finds nothing. -/
theorem findMatchingScriptAux_eq_none (param : String) :
    ∀ reg : List Script, (∀ s ∈ reg, (patternSubst s param).1 ≠ param) →
      findMatchingScriptAux param reg = none := by
  intro reg
  induction reg with
  | nil => intro _; rfl
  | cons s rest ih =>
    intro h
    simp only [findMatchingScriptAux]
    rw [if_neg (h s (List.mem_cons_self s rest))]
    exact ih (fun x hx => h x (List.mem_cons_of_mem s hx))

/-- Whatever the scan loop returns came from the registry, passed the
substituted-name comparison, and carries the bindings of the
pattern-substitution pass. -/
theorem findMatchingScriptAux_some (param : String) :
    ∀ (reg : List Script) (ps : ProcessedScript),
      findMatchingScriptAux param reg = some ps →
      ps.script ∈ reg ∧ (patternSubst ps.script param).1 = param ∧
        ps.substitutions = (patternSubst ps.script param).2 := by
  intro reg
  induction reg with
  | nil => intro ps h; simp [findMatchingScriptAux] at h
  | cons s rest ih =>
    intro ps h
    simp only [findMatchingScriptAux] at h
    by_cases hm : (patternSubst s param).1 = param
    · rw [if_pos hm] at h
      obtain rfl : (⟨s, (patternSubst s param).2⟩ : ProcessedScript) = ps :=
        Option.some.inj h
      exact ⟨List.mem_cons_self s rest, hm, rfl⟩
    · rw [if_neg hm] at h
      obtain ⟨h1, h2, h3⟩ := ih ps h
      exact ⟨List.mem_cons_of_mem s h1, h2, h3⟩

/-! ## Claim theorems -/

/-- Claim C8 (code bug): the load-time validation accepts a definition set
whose entry lacks a command list — `isScriptsFile` only checks
`typeof obj === 'object'`, so `loadScriptFile` succeeds on
`\x7b"build": \x7b\x7d\x7d` (and even on `null`) instead of failing with
`InvalidScriptDefinition`; the missing command list is only hit later,
during plan building. -/
theorem invalid_definitions_accepted_at_load :
    isScriptsFile (JSValue.jobj [("build", JSValue.jobj [])]) = true ∧
    loadScriptFile (JSValue.jobj [("build", JSValue.jobj [])]) =
      some (JSValue.jobj [("build", JSValue.jobj [])]) ∧
    isScriptsFile JSValue.jnull = true :=
  ⟨rfl, rfl, rfl⟩

/-- Claim C3 (counterexample): the self-invocation check is applied to the
raw command template, not to the fully substituted command string.
Requesting `run:bnrun` against `exRunX` substitutes `$\x7bx\x7d := bnrun`, so
the substituted command is `bnrun build` — which begins with the marker and
names the registered script `build` — yet the Plan Builder emits it as a
single literal PlanStep instead of splicing `build`'s steps. -/
theorem substituted_bnrun_command_not_spliced :
    isBnrun (subCommand [⟨"${x}", "bnrun"⟩] "${x} build") = true ∧
    isBnrun "${x} build" = false ∧
    buildPlan [exRunX, exBuild] [] 10 "run:bnrun" =
      some [⟨"run:bnrun", Phase.COMMAND, "bnrun build", false⟩] ∧
    buildPlan [exRunX, exBuild] [] 10 "run:bnrun" ≠
      some [⟨"build", Phase.COMMAND, "echo A", false⟩] := by
  refine ⟨by decide, by decide, by decide, by decide⟩

/-- Claim C3 (amended): for every command template processed during plan
building, if the RAW (pre-substitution) template string begins with the
self-invocation marker, the Plan Builder resolves the nested name taken
from the SUBSTITUTED command string and recursively builds that script's
steps at the same phase argument, splicing them in place; otherwise exactly
one PlanStep is emitted carrying the current phase, the substituted display
name, and the substituted literal command string. -/
theorem runCommand_marker_on_raw_template (reg : List Script) (pats : List String)
    (f : Nat) (name c : String) (subs : List Substitution) (phase : Phase)
    (L : List String) :
    (isBnrun c = false →
      runCommandF reg pats (f + 1) name c subs phase L =
        some ([mkStep pats name phase (subCommand subs c)], L)) ∧
    (isBnrun c = true →
      runCommandF reg pats (f + 1) name c subs phase L =
        match findMatchingScript reg (bnrunTarget (subCommand subs c)) with
        | none => none
        | some found => executeScriptF reg pats f found phase L) := by
  constructor
  · intro h; simp [runCommandF, h]
  · intro h; simp [runCommandF, h]

/-- Witness for the amended C3 theorem at a concrete plain command. -/
theorem runCommand_marker_on_raw_template_witness :
    runCommandF [] [] 5 "n" "echo x" [] Phase.COMMAND [] =
      some ([mkStep [] "n" Phase.COMMAND "echo x"], []) :=
  (runCommand_marker_on_raw_template [] [] 4 "n" "echo x" [] Phase.COMMAND []).1
    (by decide)

/-- Claim C10 (counterexample): a template whose name contains a placeholder
token CAN be matched by a colon-free request — the exact-match pass matches
the template name verbatim.  `exLiteralPh` is named `x$\x7benv\x7d`; requesting
the literal string `x$\x7benv\x7d` (which contains no `:`) returns it. -/
theorem placeholder_template_exact_matched_without_colon :
    "x${env}".toList.contains ':' = false ∧
    findPlaceholders "x${env}".toList = ["${env}"] ∧
    findMatchingScript [exLiteralPh] "x${env}" = some ⟨exLiteralPh, []⟩ := by
  refine ⟨by decide, by decide, by decide⟩

/-- Claim C10 (amended): for every requested name containing no `:`, the
Resolver can succeed only via exact match — whatever it returns has the
requested name verbatim and empty bindings (no parameter value can be
derived, so no substitution is performed in the pattern pass), and if no
template bears the requested name, resolution fails. -/
theorem colon_free_request_resolves_only_exactly (reg : List Script)
    (param : String) (hcolon : param.toList.contains ':' = false) :
    (∀ ps, findMatchingScript reg param = some ps →
        ps.script.name = param ∧ ps.substitutions = []) ∧
    ((∀ s ∈ reg, s.name ≠ param) → findMatchingScript reg param = none) := by
  have hsub : ∀ s : Script, patternSubst s param = (s.name, []) := by
    intro s
    unfold patternSubst
    rw [derivedValue_no_colon param hcolon]
  constructor
  · intro ps h
    unfold findMatchingScript at h
    cases hf : reg.find? (fun s => s.name == param) with
    | some t =>
      rw [hf] at h
      obtain rfl : (⟨t, []⟩ : ProcessedScript) = ps := Option.some.inj h
      exact ⟨by simpa using List.find?_some hf, rfl⟩
    | none =>
      rw [hf] at h
      obtain ⟨_, h2, h3⟩ := findMatchingScriptAux_some param reg ps h
      rw [hsub] at h2 h3
      exact ⟨h2, h3⟩
  · intro hal
    unfold findMatchingScript
    rw [List.find?_eq_none.mpr (fun s hs => by simpa using hal s hs)]
    exact findMatchingScriptAux_eq_none param reg
      (fun s hs => by rw [hsub]; exact hal s hs)

/-- Witness for the amended C10 theorem: `zzz` has no colon and no exact
match in the one-template registry, so resolution fails. -/
theorem colon_free_request_resolves_only_exactly_witness :
    findMatchingScript [exBuild] "zzz" = none :=
  (colon_free_request_resolves_only_exactly [exBuild] "zzz" (by decide)).2
    (by decide)

/-- Claim C5: an exact name match is returned verbatim with empty bindings
and takes priority over pattern matching (it is never shadowed by a
parameterized template); a template without placeholders in its name is
only ever returned for its exact name, with empty bindings. -/
theorem exact_match_priority (reg : List Script) (param : String) :
    (∀ t, reg.find? (fun s => s.name == param) = some t →
        findMatchingScript reg param = some ⟨t, []⟩ ∧ t.name = param) ∧
    (∀ t ∈ reg, t.name = param →
        ∃ t', findMatchingScript reg param = some ⟨t', []⟩ ∧ t'.name = param) ∧
    (∀ ps, findMatchingScript reg param = some ps →
        findPlaceholders ps.script.name.toList = [] →
        ps.script.name = param ∧ ps.substitutions = []) := by
  refine ⟨?_, ?_, ?_⟩
  · intro t ht
    constructor
    · unfold findMatchingScript
      rw [ht]
    · simpa using List.find?_some ht
  · intro t ht hname
    cases hf : reg.find? (fun s => s.name == param) with
    | none =>
      rw [List.find?_eq_none] at hf
      exact absurd (by simpa using hname) (hf t ht)
    | some t' =>
      refine ⟨t', ?_, by simpa using List.find?_some hf⟩
      unfold findMatchingScript
      rw [hf]
  · intro ps h hph
    unfold findMatchingScript at h
    cases hf : reg.find? (fun s => s.name == param) with
    | some t =>
      rw [hf] at h
      obtain rfl : (⟨t, []⟩ : ProcessedScript) = ps := Option.some.inj h
      exact ⟨by simpa using List.find?_some hf, rfl⟩
    | none =>
      rw [hf] at h
      obtain ⟨_, h2, h3⟩ := findMatchingScriptAux_some param reg ps h
      rw [patternSubst_no_placeholders ps.script param hph] at h2 h3
      exact ⟨h2, h3⟩

/-- Witness for C5: the template named `build` is returned for the request
`build` with empty bindings. -/
theorem exact_match_priority_witness :
    findMatchingScript [exBuild] "build" = some ⟨exBuild, []⟩ ∧
    exBuild.name = "build" :=
  (exact_match_priority [exBuild] "build").1 exBuild (by decide)

/-- Claim C6: in every Plan Builder call, the pre phase executes iff the pre
list is nonempty and (run-once is not set for pre, or the script's
unsubstituted template name is not yet in the run-once ledger); the post
phase under the equivalent condition; and on every successful call the
script's unsubstituted template name is appended to the ledger
unconditionally. -/
theorem phase_gates_and_ledger_append (reg : List Script) (pats : List String)
    (s : Script) (subs : List Substitution) (phase : Phase) (L : List String)
    (f : Nat) :
    (shouldExecutePre L s = true ↔
      s.pre ≠ [] ∧ (s.config.bind Config.pre ≠ some "run-once" ∨ s.name ∉ L)) ∧
    (shouldExecutePost L s = true ↔
      s.post ≠ [] ∧ (s.config.bind Config.post ≠ some "run-once" ∨ s.name ∉ L)) ∧
    (∀ steps L', executeScriptF reg pats f ⟨s, subs⟩ phase L = some (steps, L') →
        ∃ L₀, L' = L₀ ++ [s.name]) := by
  refine ⟨?_, ?_, ?_⟩
  · unfold shouldExecutePre
    by_cases hp : s.pre.length > 0
    · rw [if_pos hp]
      have hpre : s.pre ≠ [] := List.length_pos.mp hp
      cases hc : s.config with
      | none => simp [hpre]
      | some cfg =>
        by_cases hro : cfg.pre = some "run-once"
        · simp [hpre, hro]
        · simp [hpre, hro]
    · rw [if_neg hp]
      have hpre : s.pre = [] := by
        cases hx : s.pre with
        | nil => rfl
        | cons a l => rw [hx] at hp; simp at hp
      simp [hpre]
  · unfold shouldExecutePost
    by_cases hp : s.post.length > 0
    · rw [if_pos hp]
      have hpost : s.post ≠ [] := List.length_pos.mp hp
      cases hc : s.config with
      | none => simp [hpost]
      | some cfg =>
        by_cases hro : cfg.post = some "run-once"
        · simp [hpost, hro]
        · simp [hpost, hro]
    · rw [if_neg hp]
      have hpost : s.post = [] := by
        cases hx : s.post with
        | nil => rfl
        | cons a l => rw [hx] at hp; simp at hp
      simp [hpost]
  · intro steps L' h
    cases f with
    | zero => simp [executeScriptF] at h
    | succ f =>
      simp only [executeScriptF, Option.bind_eq_some, Option.some.injEq,
        Prod.mk.injEq] at h
      obtain ⟨pr, _, cm, _, po, _, _, hL⟩ := h
      exact ⟨po.2, hL.symm⟩

/-- Witness for C6 at the run-once example script: the final ledger ends with
the script's unsubstituted name. -/
theorem phase_gates_and_ledger_append_witness :
    ∃ L₀, (["s"] : List String) = L₀ ++ ["s"] :=
  (phase_gates_and_ledger_append [] [] exRunOnce [] Phase.COMMAND [] 10).2.2
    [⟨"s", Phase.PRE, "echo p", false⟩, ⟨"s", Phase.COMMAND, "echo c", false⟩]
    ["s"] (by decide)

/-- Claim C1: for a script template configured with run-once for its pre
phase (and plain phase commands), expanding it twice within one top-level
pass — the first time with its name not yet in the ledger, the second with
its name recorded — yields the pre-phase steps exactly once (from the first
expansion only) while the command-phase steps appear in full in both
expansions. -/
theorem runOnce_pre_suppressed_on_second_expansion
    (reg : List Script) (pats : List String) (s : Script)
    (sub1 sub2 : List Substitution) (ph1 ph2 : Phase)
    (hro : s.config.bind Config.pre = some "run-once")
    (hpre : s.pre ≠ [])
    (hplain1 : ∀ c ∈ s.pre, isBnrun c = false)
    (hplain2 : ∀ c ∈ s.command, isBnrun c = false)
    (hplain3 : ∀ c ∈ s.post, isBnrun c = false)
    (f1 f2 : Nat)
    (hf1 : s.pre.length + s.command.length + s.post.length + 1 < f1)
    (hf2 : s.pre.length + s.command.length + s.post.length + 1 < f2)
    (L1 L2 : List String) (hL1 : s.name ∉ L1) (hL2 : s.name ∈ L2) :
    executeScriptF reg pats f1 ⟨s, sub1⟩ ph1 L1 =
      some (plainSteps pats (subName sub1 s.name) sub1 Phase.PRE s.pre
          ++ plainSteps pats (subName sub1 s.name) sub1 Phase.COMMAND s.command
          ++ (if shouldExecutePost L1 s then
                plainSteps pats (subName sub1 s.name) sub1 Phase.POST s.post
              else []),
        L1 ++ [s.name]) ∧
    s.name ∈ L1 ++ [s.name] ∧
    executeScriptF reg pats f2 ⟨s, sub2⟩ ph2 L2 =
      some (plainSteps pats (subName sub2 s.name) sub2 Phase.COMMAND s.command
          ++ (if shouldExecutePost L2 s then
                plainSteps pats (subName sub2 s.name) sub2 Phase.POST s.post
              else []),
        L2 ++ [s.name]) := by
  obtain ⟨cfg, hcfg, hcpre⟩ : ∃ cfg, s.config = some cfg ∧ cfg.pre = some "run-once" := by
    cases hc : s.config with
    | none => rw [hc] at hro; simp at hro
    | some cfg => rw [hc] at hro; exact ⟨cfg, rfl, by simpa using hro⟩
  have hgate1 : shouldExecutePre L1 s = true := by
    simp [shouldExecutePre, List.length_pos.mpr hpre, hcfg, hcpre, hL1]
  have hgate2 : shouldExecutePre L2 s = false := by
    simp [shouldExecutePre, List.length_pos.mpr hpre, hcfg, hcpre, hL2]
  refine ⟨?_, by simp, ?_⟩
  · have h := executeScriptF_plain reg pats s sub1 ph1 L1 f1 hplain1 hplain2 hplain3 hf1
    rw [hgate1] at h
    simpa using h
  · have h := executeScriptF_plain reg pats s sub2 ph2 L2 f2 hplain1 hplain2 hplain3 hf2
    rw [hgate2] at h
    simpa using h

/-- Witness for C1 at the concrete run-once script `exRunOnce`: the first
expansion (ledger `["t"]`) emits its pre and command steps; the second
(ledger `["s"]`) emits only the command step. -/
theorem runOnce_pre_suppressed_on_second_expansion_witness :
    executeScriptF [] [] 10 ⟨exRunOnce, []⟩ Phase.COMMAND ["t"] =
      some ([⟨"s", Phase.PRE, "echo p", false⟩,
             ⟨"s", Phase.COMMAND, "echo c", false⟩], ["t", "s"]) ∧
    executeScriptF [] [] 10 ⟨exRunOnce, []⟩ Phase.COMMAND ["s"] =
      some ([⟨"s", Phase.COMMAND, "echo c", false⟩], ["s", "s"]) := by
  have h := runOnce_pre_suppressed_on_second_expansion [] [] exRunOnce [] []
    Phase.COMMAND Phase.COMMAND (by decide) (by decide) (by decide) (by decide)
    (by decide) 10 10 (by decide) (by decide) ["t"] ["s"] (by decide) (by decide)
  exact ⟨h.1, h.2.2⟩

/-- Claim C2: for a resolved invocation the flattened plan lists the (gated)
pre-phase steps, then all command-phase steps, then the (gated) post-phase
steps, siblings in declared order; and the spec's nested example — template
`all` over the `build` / `deploy:$\x7benv\x7d` registry — flattens to
`[(Command, echo A), (Pre, echo setup), (Command, echo deploy prod)]` with
nested invocations spliced in place. -/
theorem plan_phase_ordering_and_example :
    (∀ (reg : List Script) (pats : List String) (s : Script)
        (subs : List Substitution) (phase : Phase) (L : List String) (f : Nat),
        (∀ c ∈ s.pre, isBnrun c = false) →
        (∀ c ∈ s.command, isBnrun c = false) →
        (∀ c ∈ s.post, isBnrun c = false) →
        s.pre.length + s.command.length + s.post.length + 1 < f →
        executeScriptF reg pats f ⟨s, subs⟩ phase L =
          some ((if shouldExecutePre L s then
                    plainSteps pats (subName subs s.name) subs Phase.PRE s.pre
                  else [])
              ++ plainSteps pats (subName subs s.name) subs Phase.COMMAND s.command
              ++ (if shouldExecutePost L s then
                    plainSteps pats (subName subs s.name) subs Phase.POST s.post
                  else []),
            L ++ [s.name])) ∧
    buildPlan [exBuild, exDeploy, exAll] [] 10 "all" =
      some [⟨"build", Phase.COMMAND, "echo A", false⟩,
            ⟨"deploy:prod", Phase.PRE, "echo setup", false⟩,
            ⟨"deploy:prod", Phase.COMMAND, "echo deploy prod", false⟩] := by
  constructor
  · intro reg pats s subs phase L f h1 h2 h3 h4
    exact executeScriptF_plain reg pats s subs phase L f h1 h2 h3 h4
  · decide

/-- Witness for C2 at the `build` template: a plain single-command script
expands to exactly its command step and records its name. -/
theorem plan_phase_ordering_and_example_witness :
    executeScriptF [] [] 10 ⟨exBuild, []⟩ Phase.COMMAND [] =
      some ([⟨"build", Phase.COMMAND, "echo A", false⟩], ["build"]) := by
  have h := plan_phase_ordering_and_example.1 [] [] exBuild [] Phase.COMMAND [] 10
    (by decide) (by decide) (by decide) (by decide)
  exact h

/-- Claim C4: when a template name contains placeholder tokens and the
requested name has the form `baseName:value` with a non-empty value, the
pattern pass derives that single value, records one binding per placeholder
occurrence in order of appearance (each mapping to that same value), and
matches the template iff the fully substituted name equals the requested
name; the spec example `deploy:prod` yields
`[(Pre, echo setup), (Command, echo deploy prod)]`. -/
theorem pattern_resolution_bindings_and_example (s : Script) (param v : String)
    (_hph : findPlaceholders s.name.toList ≠ [])
    (hv : derivedValue param = some v) :
    (patternSubst s param).2 =
      (findPlaceholders s.name.toList).map (fun ph => ⟨ph, v⟩) ∧
    (∀ ps, findMatchingScriptAux param [s] = some ps ↔
        ((patternSubst s param).1 = param ∧ ps = ⟨s, (patternSubst s param).2⟩)) ∧
    buildPlan [exBuild, exDeploy] [] 10 "deploy:prod" =
      some [⟨"deploy:prod", Phase.PRE, "echo setup", false⟩,
            ⟨"deploy:prod", Phase.COMMAND, "echo deploy prod", false⟩] := by
  refine ⟨?_, ?_, by decide⟩
  · unfold patternSubst
    rw [hv]
    simpa using foldl_push_snd (findPlaceholders s.name.toList)
      (fun n ph => replaceFirstStr ph v n) (fun ph => (⟨ph, v⟩ : Substitution))
      s.name []
  · intro ps
    simp only [findMatchingScriptAux]
    by_cases hm : (patternSubst s param).1 = param
    · rw [if_pos hm]
      constructor
      · intro h
        exact ⟨hm, (Option.some.inj h).symm⟩
      · rintro ⟨_, rfl⟩
        rfl
    · rw [if_neg hm]
      constructor
      · intro h
        simp [findMatchingScriptAux] at h
      · rintro ⟨h1, _⟩
        exact absurd h1 hm

/-- Witness for C4 at the spec's `deploy:$\x7benv\x7d` template and the
request `deploy:prod`: one binding, mapping the placeholder to `prod`. -/
theorem pattern_resolution_bindings_and_example_witness :
    (patternSubst exDeploy "deploy:prod").2 = [⟨"${env}", "prod"⟩] := by
  have h := (pattern_resolution_bindings_and_example exDeploy "deploy:prod" "prod"
    (by decide) (by decide)).1
  exact h

/-- Claim C7: a step's skip flag is true iff at least one pattern matches the
step's origin script name or its command text (each tested independently,
one match suffices); with an empty pattern list no step is skipped; and
`runCommand` stamps each emitted step with exactly that flag. -/
theorem skip_flag_iff_pattern_match :
    (∀ (mm : String → String → Bool) (a b : String) (pats : List String),
        matchGlobPatternsWith mm [a, b] pats = true ↔
          ∃ p ∈ pats, mm a p = true ∨ mm b p = true) ∧
    (∀ items : List String, matchGlobPatterns items [] = false) ∧
    (∀ (reg : List Script) (pats : List String) (f : Nat) (name c : String)
        (subs : List Substitution) (phase : Phase) (L : List String),
        isBnrun c = false →
        runCommandF reg pats (f + 1) name c subs phase L =
          some ([⟨name, phase, subCommand subs c,
                  matchGlobPatterns [name, subCommand subs c] pats⟩], L)) := by
  refine ⟨?_, ?_, ?_⟩
  · intro mm a b pats
    simp only [matchGlobPatternsWith, List.foldl, List.nil_append, gt_iff_lt,
      decide_eq_true_eq, List.length_pos]
    rw [Ne, List.append_eq_nil]
    simp only [List.filter_eq_nil_iff, Bool.not_eq_true]
    constructor
    · intro h
      by_contra hno
      push_neg at hno
      exact h ⟨fun p hp => by
          rcases hno p hp with ⟨h1, h2⟩
          cases hx : mm a p with
          | false => rfl
          | true => exact absurd hx h1,
        fun p hp => by
          rcases hno p hp with ⟨h1, h2⟩
          cases hx : mm b p with
          | false => rfl
          | true => exact absurd hx h2⟩
    · rintro ⟨p, hp, hor⟩ ⟨h1, h2⟩
      cases hor with
      | inl hx => rw [h1 p hp] at hx; exact Bool.false_ne_true hx
      | inr hx => rw [h2 p hp] at hx; exact Bool.false_ne_true hx
  · intro items
    unfold matchGlobPatterns matchGlobPatternsWith
    have hfold : ∀ (its acc : List String),
        its.foldl
          (fun acc item => acc ++ List.filter (fun p => minimatch item p) []) acc
          = acc := by
      intro its
      induction its with
      | nil => intro acc; rfl
      | cons i its ih => intro acc; simp [ih]
    simp [hfold]
  · intro reg pats f name c subs phase L h
    simp [runCommandF, h, mkStep]

/-- Witness for C7: a plain command matching the single pattern is stamped
skip = true. -/
theorem skip_flag_iff_pattern_match_witness :
    runCommandF [] ["echo*"] 5 "n" "echo x" [] Phase.COMMAND [] =
      some ([⟨"n", Phase.COMMAND, "echo x", true⟩], []) :=
  skip_flag_iff_pattern_match.2.2 [] ["echo*"] 4 "n" "echo x" [] Phase.COMMAND []
    (by decide)

/-- Claim C9: a requested name matching no template (neither exactly nor via
placeholder substitution) makes resolution fail — `findMatchingScript`
returns nothing, the top-level plan-building pass produces no steps, and a
nested self-invocation of that name propagates the failure to the caller. -/
theorem script_not_found_no_steps (reg : List Script) (pats : List String)
    (param : String) (f : Nat)
    (h : ∀ s ∈ reg, s.name ≠ param ∧ (patternSubst s param).1 ≠ param) :
    findMatchingScript reg param = none ∧
    buildPlan reg pats f param = none ∧
    (∀ (fuel : Nat) (name : String) (phase : Phase) (L : List String),
        runCommandF reg pats (fuel + 1) name (bnrunMarker ++ param) [] phase L =
          none) := by
  have hfind : findMatchingScript reg param = none := by
    unfold findMatchingScript
    rw [List.find?_eq_none.mpr (fun s hs => by simpa using (h s hs).1)]
    exact findMatchingScriptAux_eq_none param reg (fun s hs => (h s hs).2)
  refine ⟨hfind, ?_, ?_⟩
  · unfold buildPlan
    rw [hfind]
  · intro fuel name phase L
    have happ : (bnrunMarker ++ param).toList = bnrunMarker.toList ++ param.toList :=
      String.data_append bnrunMarker param
    have hb : isBnrun (bnrunMarker ++ param) = true := by
      unfold isBnrun
      rw [happ]
      exact List.isPrefixOf_iff_prefix.mpr (List.prefix_append _ _)
    have htgt : bnrunTarget (subCommand [] (bnrunMarker ++ param)) = param := by
      show bnrunTarget (bnrunMarker ++ param) = param
      unfold bnrunTarget
      rw [happ, List.drop_left]
      rfl
    simp [runCommandF, hb, htgt, hfind]

/-- Witness for C9: the request `zzz` matches nothing in the one-template
registry, so the pass yields no steps. -/
theorem script_not_found_no_steps_witness :
    findMatchingScript [exBuild] "zzz" = none ∧
    buildPlan [exBuild] [] 9 "zzz" = none := by
  have h := script_not_found_no_steps [exBuild] [] "zzz" 9 (by decide)
  exact ⟨h.1, h.2.1⟩

end BnRun
